import Mathlib

/-! Verification development for the AFMDW Task Management System
(src/AFMDW_TMS.py): a shallow embedding of the asset repository, the
query engine and the report generators, together with theorems that
settle the specification claims about them. -/

namespace AFMDW

/-- An asset record as built by build_record_from_form (AFMDW_TMS.py,
lines 480-494).  The form writes every field as a string, so all
fields are strings here; the owner field is an Option so that records
loaded from JSON that lack the key (where the Python dict.get default
fires) are representable as well. -/
structure Asset where
  id : String
  name : String
  type : String
  status : String
  owner : Option String
  location : String
  acquisition_date : String
  release_date : String
  cost : String
  warranty : String
  notes : String
deriving DecidableEq

/-- Splitting a character list at every occurrence of a separator,
in the manner of Python str.split with a one-character separator. -/
def splitOnChar (sep : Char) : List Char → List (List Char)
  | [] => [[]]
  | c :: rest =>
    let r := splitOnChar sep rest
    if c == sep then [] :: r
    else
      match r with
      | [] => [[c]]
      | f :: fs => (c :: f) :: fs

/-- Value of a decimal digit character, none for any other character. -/
def digitVal? (c : Char) : Option Nat :=
  if 48 ≤ c.toNat ∧ c.toNat ≤ 57 then some (c.toNat - 48) else none

/-- Value of a non-empty string of decimal digits, none otherwise. -/
def digitsToNat? : List Char → Option Nat
  | [] => none
  | l => l.foldl (fun acc c => acc.bind (fun n => (digitVal? c).map (fun d => n * 10 + d))) (some 0)

/-- Decimal number parsing: models Python float() on the plain decimal
strings the application manipulates (an optional sign followed by
integer and fractional digit groups).  Malformed text yields none,
where the Python builtin raises ValueError. -/
def parseDecimal? (s : String) : Option ℚ :=
  let core : List Char → Option ℚ := fun t =>
    match splitOnChar '.' t with
    | [w] => (digitsToNat? w).map (fun n => (n : ℚ))
    | [w, f] =>
      match digitsToNat? w, digitsToNat? f with
      | some n, some m => some ((n : ℚ) + (m : ℚ) / ((10 : ℚ)) ^ f.length)
      | some n, none => if f = [] then some ((n : ℚ)) else none
      | none, some m => if w = [] then some ((m : ℚ) / ((10 : ℚ)) ^ f.length) else none
      | none, none => none
    | _ => none
  match s.data with
  | '-' :: rest => (core rest).map (fun q => -q)
  | '+' :: rest => core rest
  | l => core l

/-- Integer parsing: models Python int() on optionally signed digit
strings (the form the warranty field takes). -/
def parseInt? (s : String) : Option Int :=
  match s.data with
  | '-' :: rest => (digitsToNat? rest).map (fun n => -(n : Int))
  | '+' :: rest => (digitsToNat? rest).map (fun n => (n : Int))
  | l => (digitsToNat? l).map (fun n => (n : Int))

/-- Cost of an asset as the code computes it in arithmetic contexts,
modelling the idiom float(a.get("cost", 0) or 0): an empty cost string
is 0; a non-empty cost string is parsed, and none models the
ValueError the Python float() raises on malformed text. -/
def costVal? (a : Asset) : Option ℚ :=
  if a.cost = "" then some 0 else parseDecimal? a.cost

/-- Warranty months of an asset, modelling int(a.get("warranty", 0) or 0):
empty means 0, otherwise the string is parsed as a signed integer. -/
def warrantyMonths? (a : Asset) : Option Int :=
  if a.warranty = "" then some 0 else parseInt? a.warranty

/-- A calendar date (proleptic Gregorian), as Python datetime carries
after strptime with the format string used by the code. -/
structure Date where
  year : Nat
  month : Nat
  day : Nat
deriving DecidableEq

/-- Gregorian leap-year rule, as implemented by Python datetime. -/
def isLeap (y : Nat) : Bool := (y % 4 == 0 && y % 100 != 0) || y % 400 == 0

/-- Number of days in a month of a given year. -/
def daysInMonth (y m : Nat) : Nat :=
  if m = 2 then (if isLeap y then 29 else 28)
  else if m = 4 ∨ m = 6 ∨ m = 9 ∨ m = 11 then 30
  else 31

/-- Days in the months of year y strictly before month m. -/
def cumDaysBeforeMonth (y m : Nat) : Nat :=
  (List.range (m - 1)).foldl (fun acc i => acc + daysInMonth y (i + 1)) 0

/-- Days in the years strictly before year y (proleptic Gregorian). -/
def daysBeforeYear (y : Nat) : Nat :=
  365 * (y - 1) + (y - 1) / 4 - (y - 1) / 100 + (y - 1) / 400

/-- Rata-die day number of a date: 0001-01-01 is day 1.  Differences of
this function are exactly the day differences Python date subtraction
computes. -/
def rataDie (d : Date) : Nat :=
  daysBeforeYear d.year + cumDaysBeforeMonth d.year d.month + d.day

/-- Date parsing modelling datetime.strptime with format %Y-%m-%d as
used at AFMDW_TMS.py line 860: three dash-separated numeric fields,
where %Y matches exactly four digits (so the year lies between 1 and
9999, datetime's range), %m and %d match one or two digits, and the
month and the day are validated against the calendar. -/
def parseDate? (s : String) : Option Date :=
  match splitOnChar '-' s.data with
  | [ys, ms, ds] =>
    match digitsToNat? ys, digitsToNat? ms, digitsToNat? ds with
    | some y, some m, some d =>
      if ys.length = 4 ∧ ms.length ≤ 2 ∧ ds.length ≤ 2
          ∧ 1 ≤ y ∧ 1 ≤ m ∧ m ≤ 12 ∧ 1 ≤ d ∧ d ≤ daysInMonth y m then
        some ⟨y, m, d⟩
      else none
    | _, _, _ => none
  | _ => none

/-- Calendar-month addition following dateutil relativedelta with a
months argument, as used at AFMDW_TMS.py line 862: the month index is
shifted by k and the day is clamped to the length of the target month
(so Jan 31 plus one month is Feb 28 or 29).  The result is none when
the target month falls outside datetime's year range 1 to 9999 (the
total month index t counts year 1 as 12 to 23, year 9999 as 119988 to
119999): there the Python library raises and the bare except of the
report loop skips the asset, leaving it in no bucket. -/
def addMonths? (d : Date) (k : Int) : Option Date :=
  let t : Int := (d.year : Int) * 12 + ((d.month : Int) - 1) + k
  if t < 12 ∨ 120000 ≤ t then none
  else
    let y : Nat := (Int.ediv t 12).toNat
    let m : Nat := (Int.emod t 12).toNat + 1
    some ⟨y, m, min d.day (daysInMonth y m)⟩

/-- A moment in time: a calendar date plus the seconds elapsed since
midnight.  This models the datetime.now() value the warranty report
compares against (AFMDW_TMS.py line 853), which carries a time of day. -/
structure DateTime where
  date : Date
  secs : Nat
deriving DecidableEq

/-- Whole days from now until the midnight-timestamped expiry date,
modelling (expiry_date - today).days at AFMDW_TMS.py line 864: Python
timedelta days is the floor of the signed difference in seconds
divided by 86400. -/
def daysUntil (expiry : Date) (now : DateTime) : Int :=
  Int.ediv ((rataDie expiry : Int) * 86400 - ((rataDie now.date : Int) * 86400 + (now.secs : Int))) 86400

/-- Outcome of a mutating repository operation, as signalled to the
user through the messagebox calls in add_asset, update_record and
delete_asset. -/
inductive MutStatus
  | success
  | validationError
  | duplicateId
  | notFound
deriving DecidableEq

/-- Repository state: the in-memory collection self.assets together
with the content last successfully written to the JSON data file by
save_data. -/
structure RepoState where
  assets : List Asset
  persisted : List Asset
deriving DecidableEq

/-- save_data (AFMDW_TMS.py lines 113-119): writes the whole in-memory
collection to the data file; ok says whether the write succeeds.  On
failure the code shows an error dialog and returns normally, so
nothing is rolled back and no failure is propagated to the caller. -/
def saveData (ok : Bool) (st : RepoState) : RepoState :=
  if ok then { st with persisted := st.assets } else st

/-- findById: the idiom used throughout the code to locate an asset, a
linear scan returning the first record whose id field equals the
requested id exactly (see e.g. AFMDW_TMS.py lines 531-534, 955-958). -/
def findById (i : String) (assets : List Asset) : Option Asset :=
  assets.find? (fun a => a.id == i)

/-- add_asset (AFMDW_TMS.py lines 420-437): rejects an empty id or
name, rejects an id already present (case-sensitive equality), and
otherwise appends the record, saves, and reports success regardless
of whether the save succeeded. -/
def addAsset (a : Asset) (ok : Bool) (st : RepoState) : RepoState × MutStatus :=
  if a.id = "" ∨ a.name = "" then (st, .validationError)
  else if st.assets.any (fun x => x.id == a.id) then (st, .duplicateId)
  else (saveData ok { st with assets := st.assets ++ [a] }, .success)

/-- Position of the first element equal to x, modelling the Python
list.index call at AFMDW_TMS.py line 454. -/
def pyIndex (x : Asset) (l : List Asset) : Nat :=
  l.findIdx (fun y => y == x)

/-- update_record (AFMDW_TMS.py lines 439-461): scans for the first
asset whose id equals the selected id, rebuilds the record from the
form with the id forced back to the selected id, and writes it over
the entry list.index finds; it then saves and reports success (again
regardless of the save outcome).  Without a match it reports an error
and changes nothing. -/
def updateRecord (asset_id : String) (patch : Asset) (ok : Bool) (st : RepoState) :
    RepoState × MutStatus :=
  match st.assets.find? (fun a => a.id == asset_id) with
  | some asset =>
    let updated := { patch with id := asset_id }
    (saveData ok { st with assets := st.assets.set (pyIndex asset st.assets) updated }, .success)
  | none => (st, .notFound)

/-- delete_asset (AFMDW_TMS.py lines 463-478): once the user confirms,
keeps every record whose id differs from the selected id, saves, and
reports success; there is no not-found branch in the source. -/
def deleteAsset (i : String) (ok : Bool) (st : RepoState) : RepoState × MutStatus :=
  (saveData ok { st with assets := st.assets.filter (fun a => a.id != i) }, .success)

/-- A repository mutation as invocable from the UI, tagged with the
outcome of the save it triggers. -/
inductive RepoOp
  | add (a : Asset) (ok : Bool)
  | update (i : String) (patch : Asset) (ok : Bool)
  | del (i : String) (ok : Bool)

/-- State transition of a single repository mutation. -/
def applyOp (st : RepoState) : RepoOp → RepoState
  | .add a ok => (addAsset a ok st).1
  | .update i patch ok => (updateRecord i patch ok st).1
  | .del i ok => (deleteAsset i ok st).1

/-- The state at startup when no data file is present: an empty
collection (load_data, AFMDW_TMS.py lines 101-111). -/
def initState : RepoState := ⟨[], []⟩

/-- The repository state reached by a sequence of mutations starting
from the initial empty state. -/
def runOps (ops : List RepoOp) : RepoState := ops.foldl applyOp initState

/-- ASCII lower-casing of a string, as the code applies through
str.lower() before comparing (the Python version also folds
non-ASCII letters, which the search semantics here does not need). -/
def lowerStr (s : String) : String := ⟨s.data.map Char.toLower⟩

/-- Whether the first list is an initial segment of the second. -/
def isPrefixList : List Char → List Char → Bool
  | [], _ => true
  | _ :: _, [] => false
  | c :: cs, d :: ds => c == d && isPrefixList cs ds

/-- Whether needle occurs contiguously inside the second list: the
Python membership operator on strings, character-list form. -/
def containsList (needle : List Char) : List Char → Bool
  | [] => needle.isEmpty
  | l@(_ :: rest) => isPrefixList needle l || containsList needle rest

/-- The string the search compares against for a given search-by
choice, modelling the elif chain of perform_search (AFMDW_TMS.py
lines 636-649); none when the choice is not one of the six options,
in which case no branch of the chain can set match to True. -/
def searchField? (searchType : String) (a : Asset) : Option String :=
  if searchType = "Asset ID" then some a.id
  else if searchType = "Asset Name" then some a.name
  else if searchType = "Owner" then some (a.owner.getD "")
  else if searchType = "Status" then some a.status
  else if searchType = "Location" then some a.location
  else if searchType = "Asset Type" then some a.type
  else none

/-- Whether one asset matches a simple search: case-insensitive
substring containment of the (already lower-cased) term in the chosen
field. -/
def matchesSearch (searchType term : String) (a : Asset) : Bool :=
  match searchField? searchType a with
  | some v => containsList term.data (lowerStr v).data
  | none => false

/-- An audit-log record as written by log_query (AFMDW_TMS.py lines
1184-1195); the wall-clock timestamp column is not modelled. -/
structure QueryLogEntry where
  queryType : String
  params : List (String × String)
  resultCount : Nat
deriving DecidableEq

/-- Result of the simple-search handler: either the validation error
dialog, or the displayed result list together with the audit-log
entries appended for this query. -/
inductive SearchOutcome
  | validationError
  | ok (results : List Asset) (logged : List QueryLogEntry)
deriving DecidableEq

/-- perform_search (AFMDW_TMS.py lines 620-669): requires a search
type and a non-empty lower-cased term, filters the collection by
case-insensitive substring containment on the chosen field, displays
the results, and only then calls log_query; logOk says whether the
database insert succeeds.  log_query swallows its own failure, so the
search outcome is the same either way and exactly one entry is
appended when the insert works. -/
def performSearch (searchType rawTerm : String) (logOk : Bool) (assets : List Asset) :
    SearchOutcome :=
  let term := lowerStr rawTerm
  if searchType = "" ∨ term = "" then .validationError
  else
    let results := assets.filter (matchesSearch searchType term)
    .ok results
      (if logOk then [⟨"Search", [("type", searchType), ("term", term)], results.length⟩] else [])

/-- One equality-criterion stage of execute_query: a criterion equal
to "All" leaves the running result list unchanged, any other value
narrows it by the exact-match predicate. -/
def stageEq (crit : String) (p : Asset → Bool) (l : List Asset) : List Asset :=
  if crit ≠ "All" then l.filter p else l

/-- One cost lower-bound stage of execute_query: skipped when the
bound text is empty, skipped when the bound text does not parse
(except ValueError around float of the entry), and also skipped
entirely when any asset in the current result list has a non-empty
non-numeric cost, because the raising list comprehension is discarded
whole. -/
def stageMin (mn : String) (l : List Asset) : List Asset :=
  if mn ≠ "" then
    match parseDecimal? mn with
    | some m =>
      if l.all (fun a => (costVal? a).isSome) then
        l.filter (fun a => decide (m ≤ (costVal? a).getD 0))
      else l
    | none => l
  else l

/-- The cost upper-bound stage, with the same skipping behavior as
the lower bound. -/
def stageMax (mx : String) (l : List Asset) : List Asset :=
  if mx ≠ "" then
    match parseDecimal? mx with
    | some m =>
      if l.all (fun a => (costVal? a).isSome) then
        l.filter (fun a => decide ((costVal? a).getD 0 ≤ m))
      else l
    | none => l
  else l

/-- execute_query inside open_advanced_query (AFMDW_TMS.py lines
711-750): sequentially narrows the collection by exact status, type
and owner matches (skipping any criterion equal to "All"), then by
the cost lower bound and the cost upper bound, each applied inside a
try/except ValueError with the skipping behavior described on the
stage functions. -/
def executeQuery (status ty owner minCost maxCost : String) (assets : List Asset) : List Asset :=
  stageMax maxCost (stageMin minCost
    (stageEq owner (fun a => a.owner == some owner)
      (stageEq ty (fun a => a.type == ty)
        (stageEq status (fun a => a.status == status) assets))))

/-- The advanced-query handler viewed as the pair of its displayed
results and the audit-log entries it appends: the body of
execute_query contains no log_query call, so the appended list is
empty. -/
def executeQueryOp (status ty owner minCost maxCost : String) (assets : List Asset) :
    List Asset × List QueryLogEntry :=
  (executeQuery status ty owner minCost maxCost assets, [])

/-- Advanced filter as the specification words it (for claim C6): one
pass keeping the assets that satisfy every present non-All criterion,
with exact matches, inclusive cost bounds, an invalid or empty asset
cost treated as 0, and a malformed bound ignored for that bound only. -/
def advancedFilterSpec (status ty owner minCost maxCost : String) (assets : List Asset) :
    List Asset :=
  assets.filter (fun a =>
    (status == "All" || a.status == status) &&
    (ty == "All" || a.type == ty) &&
    (owner == "All" || a.owner == some owner) &&
    (match parseDecimal? minCost with
     | some m => decide (m ≤ (costVal? a).getD 0)
     | none => true) &&
    (match parseDecimal? maxCost with
     | some m => decide ((costVal? a).getD 0 ≤ m)
     | none => true))

/-- The three warranty buckets built by generate_warranty_report,
each entry carrying the asset, its expiry date and the day count. -/
structure WarrantyReport where
  valid : List (Asset × Date × Int)
  expiringSoon : List (Asset × Date × Int)
  expired : List (Asset × Date × Int)
deriving DecidableEq

/-- Per-asset warranty computation (AFMDW_TMS.py lines 858-873): parse
the acquisition date and warranty months, add the months with
calendar arithmetic, and count the days until expiry; none models the
bare except clause that silently skips an asset whose fields do not
parse. -/
def classify? (now : DateTime) (a : Asset) : Option (Date × Int) :=
  match parseDate? a.acquisition_date, warrantyMonths? a with
  | some acq, some wm =>
    match addMonths? acq wm with
    | some expiry => some (expiry, daysUntil expiry now)
    | none => none
  | _, _ => none

/-- One iteration of the warranty-report loop: a parsable asset is
appended to expired when its day count is negative, to expiringSoon
when it is at most 90, and to valid otherwise; an unparsable asset
leaves the buckets unchanged. -/
def wStep (now : DateTime) (r : WarrantyReport) (a : Asset) : WarrantyReport :=
  match classify? now a with
  | none => r
  | some (e, d) =>
    if d < 0 then { r with expired := r.expired ++ [(a, e, d)] }
    else if d ≤ 90 then { r with expiringSoon := r.expiringSoon ++ [(a, e, d)] }
    else { r with valid := r.valid ++ [(a, e, d)] }

/-- generate_warranty_report bucket construction (AFMDW_TMS.py lines
853-877): the collection is folded in order through the loop body,
starting from three empty buckets. -/
def warrantyReport (now : DateTime) (assets : List Asset) : WarrantyReport :=
  assets.foldl (wStep now) ⟨[], [], []⟩

/-- One rendered group of the owner-distribution report. -/
structure OwnerGroup where
  owner : String
  count : Nat
  totalCost : ℚ
  assetNames : List (String × String)
deriving DecidableEq

/-- Code-point lexicographic strict order on character lists: the
order Python uses when comparing strings. -/
def lexLt : List Char → List Char → Bool
  | [], [] => false
  | [], _ :: _ => true
  | _ :: _, [] => false
  | c :: cs, d :: ds => c.toNat < d.toNat || (c == d && lexLt cs ds)

/-- Strict string comparison by code points (Python string less-than). -/
def strLt (a b : String) : Bool := lexLt a.data b.data

/-- Reflexive string comparison by code points. -/
def strLe (a b : String) : Bool := strLt a b || a == b

/-- The dict key an asset is grouped under in generate_owner_report
(AFMDW_TMS.py line 798): the value of the owner field whenever the
key is present — even when it is the empty string — and the dict.get
default "Unassigned" only when the record carries no owner field at
all. -/
def groupKey (a : Asset) : String := a.owner.getD "Unassigned"

/-- Keys of the owners_assets dict in insertion order (first
occurrence), as Python dict construction produces them. -/
def dictKeys (assets : List Asset) : List String :=
  assets.foldl (fun ks a => if groupKey a ∈ ks then ks else ks ++ [groupKey a]) []

/-- generate_owner_report (AFMDW_TMS.py lines 789-816): group the
collection by owner key, sort the groups by key (Python sorted over
the dict items), and render per group the member count, the summed
cost and the member names in collection order.  The sum raises
ValueError on a non-empty non-numeric cost, so the whole report fails
(none) when any asset cost does not parse. -/
def ownerReport (assets : List Asset) : Option (List OwnerGroup) :=
  if assets.all (fun a => (costVal? a).isSome) then
    some ((List.insertionSort (fun x y : String => strLe x y = true) (dictKeys assets)).map (fun k =>
      let members := assets.filter (fun a => groupKey a == k)
      { owner := k
        count := members.length
        totalCost := (members.map (fun a => (costVal? a).getD 0)).sum
        assetNames := members.map (fun a => (a.name, a.id)) }))
  else none

/-- The cost-analysis report: either the No-assets text or the
computed statistics. -/
inductive CostReport
  | noAssets
  | stats (count : Nat) (totalCost avgCost : ℚ) (costByType : List (String × ℚ))
deriving DecidableEq

/-- The average-cost figure a cost report carries, if any. -/
def avgOf : CostReport → Option ℚ
  | .noAssets => none
  | .stats _ _ avg _ => some avg

/-- Asset-type keys in first-occurrence order (the cost_by_type dict
of generate_cost_report). -/
def typeKeys (assets : List Asset) : List String :=
  assets.foldl (fun ks a => if a.type ∈ ks then ks else ks ++ [a.type]) []

/-- generate_cost_report (AFMDW_TMS.py lines 892-923): an empty
collection short-circuits to the No-assets report before any average
is computed; otherwise the total, the average (total divided by the
count) and the per-type sums sorted descending by summed cost are
produced.  As in the owner report, a non-numeric cost raises,
modelled as none. -/
def generateCostReport (assets : List Asset) : Option CostReport :=
  if assets.isEmpty then some .noAssets
  else if assets.all (fun a => (costVal? a).isSome) then
    let total := (assets.map (fun a => (costVal? a).getD 0)).sum
    let byType := (typeKeys assets).map (fun k =>
      (k, ((assets.filter (fun a => a.type == k)).map (fun a => (costVal? a).getD 0)).sum))
    some (.stats assets.length total (total / (assets.length : ℚ))
      (List.insertionSort (fun x y : String × ℚ => y.2 ≤ x.2) byType))
  else none

/-- Sample record: a fully populated, well-formed asset. -/
def asset1 : Asset :=
  { id := "A1", name := "Printer", type := "Hardware", status := "Active",
    owner := some "Alice", location := "HQ", acquisition_date := "2024-01-01",
    release_date := "", cost := "50", warranty := "12", notes := "" }

/-- Sample record with a non-numeric cost field. -/
def asset2 : Asset :=
  { id := "A2", name := "Server", type := "Hardware", status := "Active",
    owner := some "Bob", location := "DC", acquisition_date := "2023-05-10",
    release_date := "", cost := "abc", warranty := "24", notes := "" }

/-- Sample record whose owner field is present but blank. -/
def assetBlankOwner : Asset :=
  { id := "A3", name := "Router", type := "Network", status := "Active",
    owner := some "", location := "HQ", acquisition_date := "2024-03-01",
    release_date := "", cost := "10", warranty := "6", notes := "" }

/-- The id column of a collection. -/
def assetIds (l : List Asset) : List String := l.map (fun a => a.id)

/-- For the first record matching an id, Python list.index locates
exactly the position the scanning loop stopped at: an earlier equal
record would carry the same id and would have been found first. -/
theorem find_id_spec (i : String) :
    ∀ (l : List Asset) (x : Asset), l.find? (fun a => a.id == i) = some x →
      x.id = i ∧ pyIndex x l = l.findIdx (fun a => a.id == i)
      ∧ l.findIdx (fun a => a.id == i) < l.length
      ∧ l[l.findIdx (fun a => a.id == i)]? = some x := by
  intro l
  induction l with
  | nil => intro x hx; simp [List.find?] at hx
  | cons b t ih =>
    intro x hx
    by_cases hb : b.id = i
    · have hpb : (b.id == i) = true := by simp [hb]
      simp only [List.find?_cons, hpb] at hx
      injection hx with hbx
      subst hbx
      refine ⟨hb, ?_, ?_, ?_⟩ <;> simp [pyIndex, List.findIdx_cons, hpb]
    · have hnb : (b.id == i) = false := by simp [hb]
      simp only [List.find?_cons, hnb] at hx
      obtain ⟨hxid, hpi, hlt, hget⟩ := ih x hx
      have hbx : (b == x) = false := by
        apply beq_eq_false_iff_ne.mpr
        intro hbe
        exact hb (hbe ▸ hxid)
      refine ⟨hxid, ?_, ?_, ?_⟩
      · simp [pyIndex, List.findIdx_cons, hbx, hnb] at hpi ⊢
        exact hpi
      · simp only [List.findIdx_cons, hnb, cond_false, List.length_cons]
        omega
      · simp [List.findIdx_cons, hnb, hget]

/-- Replacing a record with one carrying the same id leaves the id
column unchanged. -/
theorem assetIds_set (upd : Asset) :
    ∀ (l : List Asset) (k : Nat) (x : Asset), l[k]? = some x → upd.id = x.id →
      assetIds (l.set k upd) = assetIds l := by
  intro l
  induction l with
  | nil => intro k x hk _; simp at hk
  | cons b t ih =>
    intro k x hk hid
    cases k with
    | zero =>
      simp at hk
      subst hk
      simp [assetIds, hid]
    | succ n =>
      simp at hk
      have ht := ih n x hk hid
      simp only [assetIds, List.map_cons] at ht ⊢
      rw [show (b :: t).set (n + 1) upd = b :: t.set n upd from rfl]
      simp only [List.map_cons]
      exact congrArg (List.cons b.id) ht

/-- Every single repository mutation preserves distinctness of the id
column. -/
theorem applyOp_ids_nodup (st : RepoState) (op : RepoOp)
    (h : (assetIds st.assets).Nodup) : (assetIds (applyOp st op).assets).Nodup := by
  cases op with
  | add a ok =>
    by_cases h1 : a.id = "" ∨ a.name = ""
    · simpa [applyOp, addAsset, h1] using h
    · by_cases h2 : st.assets.any (fun x => x.id == a.id) = true
      · simpa [applyOp, addAsset, h1, h2] using h
      · have hnotin : a.id ∉ assetIds st.assets := by
          intro hmem
          apply h2
          rw [List.any_eq_true]
          obtain ⟨x, hx, hxid⟩ := List.mem_map.mp hmem
          exact ⟨x, hx, by simp [hxid]⟩
        have happ : assetIds (st.assets ++ [a]) = assetIds st.assets ++ [a.id] := by
          simp [assetIds]
        cases ok <;>
          simp [applyOp, addAsset, h1, h2, saveData, happ, List.nodup_append, h, hnotin]
  | update i patch ok =>
    cases hf : st.assets.find? (fun a => a.id == i) with
    | none => simpa [applyOp, updateRecord, hf] using h
    | some x =>
      obtain ⟨hxid, hpi, hlt, hget⟩ := find_id_spec i st.assets x hf
      have hids : assetIds (st.assets.set (pyIndex x st.assets) { patch with id := i }) =
          assetIds st.assets := by
        rw [hpi]
        exact assetIds_set _ st.assets _ x hget (by simp [hxid])
      cases ok <;> simpa [applyOp, updateRecord, hf, saveData, hids] using h
  | del i ok =>
    have hsub : List.Sublist (assetIds (st.assets.filter (fun a => a.id != i)))
        (assetIds st.assets) := (List.filter_sublist _).map _
    have hd := h.sublist hsub
    cases ok <;> simpa [applyOp, deleteAsset, saveData] using hd

/-- Distinctness of the id column is an invariant of every run of
repository mutations. -/
theorem runOps_ids_nodup : ∀ (ops : List RepoOp) (st : RepoState),
    (assetIds st.assets).Nodup → (assetIds (ops.foldl applyOp st).assets).Nodup := by
  intro ops
  induction ops with
  | nil => intro st h; simpa using h
  | cons op rest ih => intro st h; exact ih _ (applyOp_ids_nodup st op h)

/-- Claim C2: asset ids are pairwise distinct (by exact string
comparison) in every state reachable through repository mutations
from the initial empty state, and a create with a duplicate id, an
empty id or an empty name fails and leaves the collection unchanged
in count and contents. -/
theorem repo_ids_unique (ops : List RepoOp) (a : Asset) (ok : Bool) (st : RepoState) :
    (assetIds (runOps ops).assets).Nodup
    ∧ ((a.id = "" ∨ a.name = "" ∨ ∃ x ∈ st.assets, x.id = a.id) →
        (addAsset a ok st).1 = st ∧ (addAsset a ok st).2 ≠ MutStatus.success) := by
  constructor
  · exact runOps_ids_nodup ops initState (by simp [initState, assetIds])
  · intro h
    rcases h with h | h | ⟨x, hx, hxid⟩
    · simp [addAsset, h]
    · simp [addAsset, h]
    · by_cases h1 : a.id = "" ∨ a.name = ""
      · simp [addAsset, h1]
      · have h2 : st.assets.any (fun y => y.id == a.id) = true :=
          List.any_eq_true.mpr ⟨x, hx, by simp [hxid]⟩
        simp [addAsset, h1, h2]

/-- Claim C2 witness: distinct ids in a concretely-reached state and
a concrete rejected duplicate create. -/
theorem repo_ids_unique_witness :
    (assetIds (runOps [RepoOp.add asset1 true, RepoOp.add asset2 true,
        RepoOp.update "A1" assetBlankOwner true, RepoOp.del "A2" true]).assets).Nodup
    ∧ (addAsset asset1 true ⟨[asset1], [asset1]⟩).1 = ⟨[asset1], [asset1]⟩
    ∧ (addAsset asset1 true ⟨[asset1], [asset1]⟩).2 ≠ MutStatus.success := by
  have h1 := (repo_ids_unique [RepoOp.add asset1 true, RepoOp.add asset2 true,
      RepoOp.update "A1" assetBlankOwner true, RepoOp.del "A2" true] asset1 true
      ⟨[asset1], [asset1]⟩).1
  have h2 := (repo_ids_unique [] asset1 true ⟨[asset1], [asset1]⟩).2
    (Or.inr (Or.inr ⟨asset1, by simp, rfl⟩))
  exact ⟨h1, h2.1, h2.2⟩

/-- Claim C10: updating an existing id replaces exactly the first
record carrying that id, in place: the rebuilt record (with the id
preserved) occupies the same position as the record it replaces, the
length is unchanged, and every other position is untouched. -/
theorem update_in_place (st : RepoState) (i : String) (patch : Asset) (ok : Bool) (x : Asset)
    (hx : st.assets.find? (fun a => a.id == i) = some x) :
    (updateRecord i patch ok st).2 = MutStatus.success
    ∧ (updateRecord i patch ok st).1.assets.length = st.assets.length
    ∧ (updateRecord i patch ok st).1.assets[st.assets.findIdx (fun a => a.id == i)]? =
        some { patch with id := i }
    ∧ st.assets[st.assets.findIdx (fun a => a.id == i)]? = some x
    ∧ ∀ j, j ≠ st.assets.findIdx (fun a => a.id == i) →
        (updateRecord i patch ok st).1.assets[j]? = st.assets[j]? := by
  obtain ⟨hxid, hpi, hlt, hget⟩ := find_id_spec i st.assets x hx
  have hass : (updateRecord i patch ok st).1.assets =
      st.assets.set (st.assets.findIdx (fun a => a.id == i)) { patch with id := i } := by
    cases ok <;> simp [updateRecord, hx, saveData, hpi]
  refine ⟨?_, ?_, ?_, hget, ?_⟩
  · cases ok <;> simp [updateRecord, hx, saveData]
  · rw [hass]; simp
  · rw [hass]; exact List.getElem?_set_self hlt
  · intro j hj
    rw [hass]
    exact List.getElem?_set_ne (Ne.symm hj)

/-- Claim C10 witness: updating the second of two records in place,
with the first record untouched. -/
theorem update_in_place_witness :
    (updateRecord "A3" asset2 true ⟨[asset1, assetBlankOwner], []⟩).2 = MutStatus.success
    ∧ (updateRecord "A3" asset2 true ⟨[asset1, assetBlankOwner], []⟩).1.assets[
        ([asset1, assetBlankOwner] : List Asset).findIdx (fun a => a.id == "A3")]? =
        some { asset2 with id := "A3" }
    ∧ (updateRecord "A3" asset2 true ⟨[asset1, assetBlankOwner], []⟩).1.assets[0]? =
        some asset1 := by
  have h := update_in_place ⟨[asset1, assetBlankOwner], []⟩ "A3" asset2 true assetBlankOwner
    (by decide)
  exact ⟨h.1, h.2.2.1, h.2.2.2.2 0 (by decide)⟩

/-- Claim C1 (amended): when the Durable Store save fails, the
mutating repository operations keep the in-memory mutation (there is
no rollback), leave the persisted collection stale, and still report
success to the user; the failure is only shown as a dialog inside
save_data and never propagated to the operation. -/
theorem save_failure_keeps_mutation_and_reports_success
    (st : RepoState) (a : Asset) (i : String) (patch : Asset) :
    (¬(a.id = "" ∨ a.name = "") →
      st.assets.any (fun x => x.id == a.id) = false →
        addAsset a false st =
          ({ assets := st.assets ++ [a], persisted := st.persisted }, MutStatus.success)
        ∧ st.assets ++ [a] ≠ st.assets)
    ∧ ((deleteAsset i false st).1.persisted = st.persisted
        ∧ (deleteAsset i false st).2 = MutStatus.success)
    ∧ (∀ x, st.assets.find? (fun b => b.id == i) = some x →
        (updateRecord i patch false st).1.persisted = st.persisted
        ∧ (updateRecord i patch false st).2 = MutStatus.success
        ∧ (updateRecord i patch false st).1.assets =
            st.assets.set (pyIndex x st.assets) { patch with id := i }) := by
  refine ⟨fun h1 h2 => ⟨?_, ?_⟩, ⟨?_, ?_⟩, fun x hx => ?_⟩
  · simp [addAsset, h1, h2, saveData]
  · intro he
    have := congrArg List.length he
    simp at this
  · simp [deleteAsset, saveData]
  · simp [deleteAsset, saveData]
  · refine ⟨?_, ?_, ?_⟩ <;> simp [updateRecord, hx, saveData]

/-- Claim C1 counterexample: adding a valid asset while the save
fails leaves the new record in memory (no rollback), leaves the
persisted file untouched, and still reports success. -/
theorem add_on_failed_save_counterexample :
    addAsset asset1 false initState =
      ({ assets := [asset1], persisted := [] }, MutStatus.success)
    ∧ ([asset1] : List Asset) ≠ [] := ⟨by decide, by decide⟩

/-- Claim C1 witness: the amended statement evaluated on concrete
repositories. -/
theorem save_failure_witness :
    (addAsset asset1 false ⟨[], []⟩ =
        ({ assets := [asset1], persisted := [] }, MutStatus.success)
      ∧ [asset1] ≠ ([] : List Asset))
    ∧ (deleteAsset "A1" false ⟨[asset1], [asset1]⟩).1.persisted = [asset1]
    ∧ (updateRecord "A1" asset2 false ⟨[asset1], [asset1]⟩).2 = MutStatus.success := by
  have hA := (save_failure_keeps_mutation_and_reports_success ⟨[], []⟩ asset1 "A1" asset2).1
    (by decide) (by decide)
  have hD := (save_failure_keeps_mutation_and_reports_success ⟨[asset1], [asset1]⟩ asset1
    "A1" asset2).2.1
  have hU := (save_failure_keeps_mutation_and_reports_success ⟨[asset1], [asset1]⟩ asset1
    "A1" asset2).2.2 asset1 (by decide)
  exact ⟨hA, hD.1, hU.2.1⟩

/-- Claim C4 (amended): after delete(id), findById(id) returns none;
and deleting an id that is not in the collection leaves the in-memory
collection unchanged but reports success — the code has no NotFound
outcome for delete. -/
theorem delete_then_find_none (i : String) (ok : Bool) (st : RepoState) :
    findById i ((deleteAsset i ok st).1.assets) = none
    ∧ ((∀ a ∈ st.assets, a.id ≠ i) →
        (deleteAsset i ok st).1.assets = st.assets
        ∧ (deleteAsset i ok st).2 = MutStatus.success) := by
  have hass : (deleteAsset i ok st).1.assets = st.assets.filter (fun a => a.id != i) := by
    cases ok <;> simp [deleteAsset, saveData]
  constructor
  · rw [hass, findById, List.find?_eq_none]
    intro x hx
    have hx2 := (List.mem_filter.mp hx).2
    simp only [bne_iff_ne, ne_eq] at hx2
    simp [hx2]
  · intro h
    have hsame : st.assets.filter (fun a => a.id != i) = st.assets := by
      rw [List.filter_eq_self]
      intro a ha
      simpa using h a ha
    refine ⟨by rw [hass, hsame], ?_⟩
    cases ok <;> simp [deleteAsset, saveData]

/-- Claim C4 counterexample: deleting an id that is not present does
not fail with NotFound — the operation reports success while changing
nothing. -/
theorem delete_missing_counterexample :
    deleteAsset "ZZ" true ⟨[asset1], [asset1]⟩ = (⟨[asset1], [asset1]⟩, MutStatus.success)
    ∧ MutStatus.success ≠ MutStatus.notFound := ⟨by decide, by decide⟩

/-- Claim C4 witness: the amended statement evaluated on a concrete
repository and a missing id. -/
theorem delete_witness :
    findById "ZZ" ((deleteAsset "ZZ" true ⟨[asset1], [asset1]⟩).1.assets) = none
    ∧ (deleteAsset "ZZ" true ⟨[asset1], [asset1]⟩).1.assets = [asset1] := by
  have h := delete_then_find_none "ZZ" true ⟨[asset1], [asset1]⟩
  exact ⟨h.1, (h.2 (by decide)).1⟩

/-- Claim C5 (amended): an empty search type or an empty lower-cased
term is rejected with the validation dialog, but an unrecognized
non-empty search type is not an error: no branch of the elif chain
matches, so the query succeeds with an empty result set (and is even
logged). -/
theorem search_validation (stype t : String) (logOk : Bool) (assets : List Asset) :
    ((stype = "" ∨ lowerStr t = "") → performSearch stype t logOk assets = .validationError)
    ∧ (stype ≠ "" → lowerStr t ≠ "" →
        stype ∉ (["Asset ID", "Asset Name", "Owner", "Status", "Location",
          "Asset Type"] : List String) →
        performSearch stype t logOk assets =
          .ok [] (if logOk then [⟨"Search", [("type", stype), ("term", lowerStr t)], 0⟩]
            else [])) := by
  constructor
  · intro h
    simp [performSearch, h]
  · intro h1 h2 h3
    simp only [List.mem_cons, List.not_mem_nil, or_false, not_or] at h3
    obtain ⟨n1, n2, n3, n4, n5, n6⟩ := h3
    have hm : ∀ a : Asset, matchesSearch stype (lowerStr t) a = false := by
      intro a
      simp [matchesSearch, searchField?, n1, n2, n3, n4, n5, n6]
    have hr : assets.filter (matchesSearch stype (lowerStr t)) = [] := by
      rw [List.filter_eq_nil_iff]
      intro a _
      simp [hm a]
    simp [performSearch, h1, h2, hr]

/-- Claim C5 counterexample: the search type foo is none of the six
recognized fields, yet the query reports an empty-result success
instead of a validation error. -/
theorem unrecognized_field_counterexample :
    performSearch "foo" "x" true [asset1] =
      .ok [] [⟨"Search", [("type", "foo"), ("term", "x")], 0⟩]
    ∧ (SearchOutcome.ok [] [⟨"Search", [("type", "foo"), ("term", "x")], 0⟩])
        ≠ SearchOutcome.validationError := ⟨by decide, by decide⟩

/-- Claim C5 witness: the amended statement evaluated at an empty
field choice and at an unrecognized one. -/
theorem search_validation_witness :
    performSearch "" "x" true [asset1] = .validationError
    ∧ performSearch "foo" "x" true [asset1] =
        .ok [] (if true then [⟨"Search", [("type", "foo"), ("term", lowerStr "x")], 0⟩]
          else []) := by
  have h0 := (search_validation "" "x" true [asset1]).1 (Or.inl rfl)
  have h1 := (search_validation "foo" "x" true [asset1]).2 (by decide) (by decide) (by decide)
  exact ⟨h0, h1⟩

/-- Claim C3 (amended): a valid simple search appends exactly one
audit-log entry recording the mode, the parameters and the result
count of the already-computed result set, and a failing append leaves
the query result unchanged; the advanced query appends no entry at
all — execute_query never calls log_query. -/
theorem query_logging (stype t : String) (assets : List Asset)
    (h1 : stype ≠ "") (h2 : lowerStr t ≠ "") :
    (∃ R, performSearch stype t true assets =
          .ok R [⟨"Search", [("type", stype), ("term", lowerStr t)], R.length⟩]
        ∧ performSearch stype t false assets = .ok R [])
    ∧ ∀ status ty ow mn mx qassets,
        (executeQueryOp status ty ow mn mx qassets).2 = ([] : List QueryLogEntry) := by
  refine ⟨⟨assets.filter (matchesSearch stype (lowerStr t)), ?_, ?_⟩,
    fun _ _ _ _ _ _ => rfl⟩
  · simp [performSearch, h1, h2]
  · simp [performSearch, h1, h2]

/-- Claim C3 counterexample: an advanced query that computes a
non-empty result set appends zero audit-log entries, not exactly
one. -/
theorem advanced_query_not_logged_counterexample :
    (executeQueryOp "All" "All" "All" "" "" [asset1]).1 = [asset1]
    ∧ (executeQueryOp "All" "All" "All" "" "" [asset1]).2.length = 0
    ∧ (0 : Nat) ≠ 1 := ⟨by decide, rfl, by decide⟩

/-- Claim C3 witness: the amended statement evaluated on a concrete
search and a concrete advanced query. -/
theorem query_logging_witness :
    performSearch "Owner" "ALI" false [asset1, asset2] = .ok [asset1] []
    ∧ (executeQueryOp "All" "All" "All" "" "" [asset2]).2 = ([] : List QueryLogEntry) := by
  obtain ⟨⟨R, hT, hF⟩, hq⟩ := query_logging "Owner" "ALI" [asset1, asset2]
    (by decide) (by decide)
  have hc : performSearch "Owner" "ALI" true [asset1, asset2] =
      .ok [asset1] [⟨"Search", [("type", "Owner"), ("term", lowerStr "ALI")], 1⟩] := by decide
  rw [hc] at hT
  injection hT with hR hlog
  rw [hR.symm] at hF
  exact ⟨hF, hq "All" "All" "All" "" "" [asset2]⟩

/-- An equality stage is one filter whose predicate is vacuous for
the "All" criterion. -/
theorem stageEq_eq_filter (crit : String) (p : Asset → Bool) (l : List Asset) :
    stageEq crit p l = l.filter (fun a => (crit == "All") || p a) := by
  by_cases hs : crit = "All"
  · simp [stageEq, hs]
  · have hc : (crit == "All") = false := beq_eq_false_iff_ne.mpr hs
    simp [stageEq, hs, hc]

/-- When every cost in the list parses, the lower-bound stage is one
filter whose predicate is vacuous for an absent or malformed bound. -/
theorem stageMin_eq_filter (mn : String) (l : List Asset)
    (hall : ∀ a ∈ l, (costVal? a).isSome) :
    stageMin mn l = l.filter (fun a =>
      match parseDecimal? mn with
      | some m => decide (m ≤ (costVal? a).getD 0)
      | none => true) := by
  by_cases he : mn = ""
  · subst he
    have hp : parseDecimal? "" = none := by decide
    simp [stageMin, hp]
  · cases hp : parseDecimal? mn with
    | none => simp [stageMin, he, hp]
    | some m =>
      have hall' : l.all (fun a => (costVal? a).isSome) = true :=
        List.all_eq_true.mpr (fun a ha => by simpa using hall a ha)
      simp [stageMin, he, hp, hall']

/-- When every cost in the list parses, the upper-bound stage is one
filter whose predicate is vacuous for an absent or malformed bound. -/
theorem stageMax_eq_filter (mx : String) (l : List Asset)
    (hall : ∀ a ∈ l, (costVal? a).isSome) :
    stageMax mx l = l.filter (fun a =>
      match parseDecimal? mx with
      | some m => decide ((costVal? a).getD 0 ≤ m)
      | none => true) := by
  by_cases he : mx = ""
  · subst he
    have hp : parseDecimal? "" = none := by decide
    simp [stageMax, hp]
  · cases hp : parseDecimal? mx with
    | none => simp [stageMax, he, hp]
    | some m =>
      have hall' : l.all (fun a => (costVal? a).isSome) = true :=
        List.all_eq_true.mpr (fun a ha => by simpa using hall a ha)
      simp [stageMax, he, hp, hall']

/-- Claim C6 (amended): for every criteria object and every
collection in which each asset cost is empty or numeric, the advanced
filter returns exactly the assets satisfying the conjunction of all
present non-All criteria — exact status, type and owner matches and
inclusive cost bounds — in original collection order, and a malformed
minCost or maxCost text is ignored for that bound only.  (When some
asset surviving the equality criteria has a non-empty non-numeric
cost the code instead drops the affected bound for all assets, the
behavior the counterexample exhibits.) -/
theorem advanced_filter_amended (status ty owner minCost maxCost : String)
    (assets : List Asset) (h : ∀ a ∈ assets, (costVal? a).isSome) :
    executeQuery status ty owner minCost maxCost assets =
      advancedFilterSpec status ty owner minCost maxCost assets := by
  simp only [executeQuery]
  rw [stageEq_eq_filter, stageEq_eq_filter, stageEq_eq_filter]
  rw [stageMin_eq_filter _ _ (fun a ha => h a
    (List.mem_of_mem_filter (List.mem_of_mem_filter (List.mem_of_mem_filter ha))))]
  rw [stageMax_eq_filter _ _ (fun a ha => h a
    (List.mem_of_mem_filter (List.mem_of_mem_filter (List.mem_of_mem_filter
      (List.mem_of_mem_filter ha)))))]
  rw [List.filter_filter, List.filter_filter, List.filter_filter, List.filter_filter]
  rw [advancedFilterSpec]
  apply List.filter_congr
  intro a _
  generalize (status == "All" || a.status == status) = b1
  generalize (ty == "All" || a.type == ty) = b2
  generalize (owner == "All" || a.owner == some owner) = b3
  generalize (match parseDecimal? minCost with
    | some m => decide (m ≤ (costVal? a).getD 0)
    | none => true) = b4
  generalize (match parseDecimal? maxCost with
    | some m => decide ((costVal? a).getD 0 ≤ m)
    | none => true) = b5
  revert b1 b2 b3 b4 b5
  decide

/-- Claim C6 counterexample: with a well-formed minCost of 100 over a
collection holding a 50-cost asset and a malformed-cost asset, the
code drops the lower bound entirely (the raising comprehension is
discarded) and returns both records, while the specified conjunction
— treating the invalid cost as 0 — returns neither. -/
theorem advanced_filter_counterexample :
    executeQuery "All" "All" "All" "100" "" [asset1, asset2] = [asset1, asset2]
    ∧ advancedFilterSpec "All" "All" "All" "100" "" [asset1, asset2] = []
    ∧ executeQuery "All" "All" "All" "100" "" [asset1, asset2] ≠
        advancedFilterSpec "All" "All" "All" "100" "" [asset1, asset2] :=
  ⟨by decide, by decide, by decide⟩

/-- Claim C6 witness: the amended statement on a concrete collection
whose costs all parse, with a present status criterion. -/
theorem advanced_filter_witness :
    executeQuery "Active" "All" "All" "" "" [asset1, assetBlankOwner] =
      advancedFilterSpec "Active" "All" "All" "" "" [asset1, assetBlankOwner] :=
  advanced_filter_amended "Active" "All" "All" "" "" [asset1, assetBlankOwner] (by decide)

/-- One report-loop step never removes an entry from any bucket. -/
theorem wStep_mono (now : DateTime) (r : WarrantyReport) (a : Asset) :
    (∀ x ∈ r.expired, x ∈ (wStep now r a).expired)
    ∧ (∀ x ∈ r.expiringSoon, x ∈ (wStep now r a).expiringSoon)
    ∧ (∀ x ∈ r.valid, x ∈ (wStep now r a).valid) := by
  unfold wStep
  cases hc : classify? now a with
  | none => exact ⟨fun x hx => hx, fun x hx => hx, fun x hx => hx⟩
  | some ed =>
    obtain ⟨e, d⟩ := ed
    by_cases h1 : d < 0
    · simp only [if_pos h1]
      exact ⟨fun x hx => List.mem_append_left _ hx, fun x hx => hx, fun x hx => hx⟩
    · by_cases h2 : d ≤ 90
      · simp only [if_neg h1, if_pos h2]
        exact ⟨fun x hx => hx, fun x hx => List.mem_append_left _ hx, fun x hx => hx⟩
      · simp only [if_neg h1, if_neg h2]
        exact ⟨fun x hx => hx, fun x hx => hx, fun x hx => List.mem_append_left _ hx⟩

/-- Folding the report loop preserves bucket membership. -/
theorem foldl_wStep_mono (now : DateTime) :
    ∀ (l : List Asset) (r : WarrantyReport),
      (∀ x ∈ r.expired, x ∈ (l.foldl (wStep now) r).expired)
      ∧ (∀ x ∈ r.expiringSoon, x ∈ (l.foldl (wStep now) r).expiringSoon)
      ∧ (∀ x ∈ r.valid, x ∈ (l.foldl (wStep now) r).valid) := by
  intro l
  induction l with
  | nil => exact fun r => ⟨fun x hx => hx, fun x hx => hx, fun x hx => hx⟩
  | cons b t ih =>
    intro r
    refine ⟨fun x hx => ?_, fun x hx => ?_, fun x hx => ?_⟩
    · exact (ih (wStep now r b)).1 x ((wStep_mono now r b).1 x hx)
    · exact (ih (wStep now r b)).2.1 x ((wStep_mono now r b).2.1 x hx)
    · exact (ih (wStep now r b)).2.2 x ((wStep_mono now r b).2.2 x hx)

/-- Every processed asset whose fields parse lands in the bucket its
day count selects. -/
theorem foldl_wStep_adds (now : DateTime) :
    ∀ (l : List Asset) (r : WarrantyReport) (a : Asset) (e : Date) (d : Int),
      a ∈ l → classify? now a = some (e, d) →
      (d < 0 → (a, e, d) ∈ (l.foldl (wStep now) r).expired)
      ∧ (0 ≤ d → d ≤ 90 → (a, e, d) ∈ (l.foldl (wStep now) r).expiringSoon)
      ∧ (90 < d → (a, e, d) ∈ (l.foldl (wStep now) r).valid) := by
  intro l
  induction l with
  | nil => intro r a e d ha; simp at ha
  | cons b t ih =>
    intro r a e d ha hc
    rcases List.mem_cons.mp ha with hab | hat
    · subst hab
      refine ⟨fun h1 => ?_, fun h1 h2 => ?_, fun h1 => ?_⟩
      · have hx : (a, e, d) ∈ (wStep now r a).expired := by
          unfold wStep
          rw [hc]
          simp [h1]
        exact (foldl_wStep_mono now t (wStep now r a)).1 _ hx
      · have hx : (a, e, d) ∈ (wStep now r a).expiringSoon := by
          unfold wStep
          rw [hc]
          have h1' : ¬ d < 0 := by omega
          simp [h1', h2]
        exact (foldl_wStep_mono now t (wStep now r a)).2.1 _ hx
      · have hx : (a, e, d) ∈ (wStep now r a).valid := by
          unfold wStep
          rw [hc]
          have hna : ¬ d < 0 := by omega
          have hnb : ¬ d ≤ 90 := by omega
          simp [hna, hnb]
        exact (foldl_wStep_mono now t (wStep now r a)).2.2 _ hx
    · exact ih (wStep now r b) a e d hat hc

/-- Every entry of a bucket satisfies the day-count condition of that
bucket, provided the starting buckets do. -/
theorem foldl_wStep_inv (now : DateTime) :
    ∀ (l : List Asset) (r : WarrantyReport),
      (∀ x ∈ r.expired, x.2.2 < 0) →
      (∀ x ∈ r.expiringSoon, 0 ≤ x.2.2 ∧ x.2.2 ≤ 90) →
      (∀ x ∈ r.valid, 90 < x.2.2) →
      (∀ x ∈ (l.foldl (wStep now) r).expired, x.2.2 < 0)
      ∧ (∀ x ∈ (l.foldl (wStep now) r).expiringSoon, 0 ≤ x.2.2 ∧ x.2.2 ≤ 90)
      ∧ (∀ x ∈ (l.foldl (wStep now) r).valid, 90 < x.2.2) := by
  intro l
  induction l with
  | nil => intro r h1 h2 h3; exact ⟨h1, h2, h3⟩
  | cons b t ih =>
    intro r h1 h2 h3
    apply ih (wStep now r b)
    · unfold wStep
      cases hc : classify? now b with
      | none => exact h1
      | some ed =>
        obtain ⟨e, d⟩ := ed
        by_cases hd : d < 0
        · simp only [if_pos hd]
          intro x hx
          rcases List.mem_append.mp hx with hx | hx
          · exact h1 x hx
          · simp only [List.mem_singleton] at hx
            subst hx
            exact hd
        · by_cases hd2 : d ≤ 90
          · simp only [if_neg hd, if_pos hd2]
            exact h1
          · simp only [if_neg hd, if_neg hd2]
            exact h1
    · unfold wStep
      cases hc : classify? now b with
      | none => exact h2
      | some ed =>
        obtain ⟨e, d⟩ := ed
        by_cases hd : d < 0
        · simp only [if_pos hd]
          exact h2
        · by_cases hd2 : d ≤ 90
          · simp only [if_neg hd, if_pos hd2]
            intro x hx
            rcases List.mem_append.mp hx with hx | hx
            · exact h2 x hx
            · simp only [List.mem_singleton] at hx
              subst hx
              exact ⟨show (0 : Int) ≤ d by omega, hd2⟩
          · simp only [if_neg hd, if_neg hd2]
            exact h2
    · unfold wStep
      cases hc : classify? now b with
      | none => exact h3
      | some ed =>
        obtain ⟨e, d⟩ := ed
        by_cases hd : d < 0
        · simp only [if_pos hd]
          exact h3
        · by_cases hd2 : d ≤ 90
          · simp only [if_neg hd, if_pos hd2]
            exact h3
          · simp only [if_neg hd, if_neg hd2]
            intro x hx
            rcases List.mem_append.mp hx with hx | hx
            · exact h3 x hx
            · simp only [List.mem_singleton] at hx
              subst hx
              exact show (90 : Int) < d by omega

/-- A date the strptime model accepts has a positive year and month. -/
theorem parseDate?_bounds {s : String} {d : Date} (h : parseDate? s = some d) :
    1 ≤ d.year ∧ 1 ≤ d.month := by
  unfold parseDate? at h
  split at h
  · split at h
    · split at h
      · injection h with h'
        subst h'
        rename_i hcond
        exact ⟨hcond.2.2.2.1, hcond.2.2.2.2.1⟩
      · exact absurd h (by simp)
    · exact absurd h (by simp)
  · exact absurd h (by simp)

/-- Calendar-month addition succeeds on a valid date and a
non-negative month count whenever the target month index stays below
datetime's year-9999 cap. -/
theorem addMonths?_some (d : Date) (k : Int) (hy : 1 ≤ d.year) (hm : 1 ≤ d.month)
    (hk : 0 ≤ k) (hub : (d.year : Int) * 12 + ((d.month : Int) - 1) + k < 120000) :
    ∃ e, addMonths? d k = some e := by
  unfold addMonths?
  have hy' : (1 : Int) ≤ (d.year : Int) := by exact_mod_cast hy
  have hm' : (1 : Int) ≤ (d.month : Int) := by exact_mod_cast hm
  have ht : ¬ ((d.year : Int) * 12 + ((d.month : Int) - 1) + k < 12 ∨
      120000 ≤ (d.year : Int) * 12 + ((d.month : Int) - 1) + k) := by
    have h12 : (12 : Int) ≤ (d.year : Int) * 12 := by omega
    omega
  simp only [if_neg ht]
  exact ⟨_, rfl⟩

/-- Claim C7 (amended): for every asset with parsable acquisition
date and non-negative parsable warranty months whose calendar-month
addition stays within datetime's year range (index below 120000, i.e.
expiry year at most 9999), the report computes the expiry date by
calendar-month addition (with human month and day rollover) and
buckets the asset by its day count — Expired below 0, ExpiringSoon
from 0 to 90, Valid above 90 — and every bucket entry satisfies its
bucket's condition; an asset whose addition would pass year 9999
raises inside the loop and is skipped like an unparsable one, landing
in no bucket.  The day count subtracts the full datetime.now
timestamp, so the spec's concrete example yields -14 only when
evaluated exactly at midnight of 2025-01-15 (seconds 0); at any later
moment of that day it yields -15. -/
theorem warranty_classification_amended (now : DateTime) (assets : List Asset) (a : Asset)
    (acq : Date) (wm : Int) (ha : a ∈ assets)
    (hacq : parseDate? a.acquisition_date = some acq)
    (hwm : warrantyMonths? a = some wm) (hk : 0 ≤ wm)
    (hub : (acq.year : Int) * 12 + ((acq.month : Int) - 1) + wm < 120000) :
    ∃ expiry, addMonths? acq wm = some expiry
      ∧ (daysUntil expiry now < 0 →
          (a, expiry, daysUntil expiry now) ∈ (warrantyReport now assets).expired)
      ∧ (0 ≤ daysUntil expiry now → daysUntil expiry now ≤ 90 →
          (a, expiry, daysUntil expiry now) ∈ (warrantyReport now assets).expiringSoon)
      ∧ (90 < daysUntil expiry now →
          (a, expiry, daysUntil expiry now) ∈ (warrantyReport now assets).valid)
      ∧ (∀ x ∈ (warrantyReport now assets).expired, x.2.2 < 0)
      ∧ (∀ x ∈ (warrantyReport now assets).expiringSoon, 0 ≤ x.2.2 ∧ x.2.2 ≤ 90)
      ∧ (∀ x ∈ (warrantyReport now assets).valid, 90 < x.2.2)
      ∧ (∀ (b : Asset) (acq' : Date) (wm' : Int),
          parseDate? b.acquisition_date = some acq' → warrantyMonths? b = some wm' →
          120000 ≤ (acq'.year : Int) * 12 + ((acq'.month : Int) - 1) + wm' →
          classify? now b = none) := by
  obtain ⟨hy, hm⟩ := parseDate?_bounds hacq
  obtain ⟨expiry, hexp⟩ := addMonths?_some acq wm hy hm hk hub
  have hcl : classify? now a = some (expiry, daysUntil expiry now) := by
    simp [classify?, hacq, hwm, hexp]
  have hadds := foldl_wStep_adds now assets ⟨[], [], []⟩ a expiry (daysUntil expiry now) ha hcl
  have hinv := foldl_wStep_inv now assets ⟨[], [], []⟩ (by simp) (by simp) (by simp)
  have hskip : ∀ (b : Asset) (acq' : Date) (wm' : Int),
      parseDate? b.acquisition_date = some acq' → warrantyMonths? b = some wm' →
      120000 ≤ (acq'.year : Int) * 12 + ((acq'.month : Int) - 1) + wm' →
      classify? now b = none := by
    intro b acq' wm' hb1 hb2 hb3
    have hadd : addMonths? acq' wm' = none := by
      unfold addMonths?
      rw [if_pos (Or.inr hb3)]
    simp [classify?, hb1, hb2, hadd]
  exact ⟨expiry, hexp, hadds.1, hadds.2.1, hadds.2.2, hinv.1, hinv.2.1, hinv.2.2, hskip⟩

/-- Claim C7 counterexample: the spec's concrete asset (acquired
2024-01-01, 12 warranty months) evaluated during 2025-01-15 — here at
10:00, seconds 36000 — is bucketed Expired with day count -15, i.e.
15 days overdue, not the -14 and 14 the claim states; -14 arises only
at exactly midnight. -/
theorem warranty_example_counterexample :
    parseDate? asset1.acquisition_date = some ⟨2024, 1, 1⟩
    ∧ warrantyMonths? asset1 = some 12
    ∧ addMonths? ⟨2024, 1, 1⟩ 12 = some ⟨2025, 1, 1⟩
    ∧ (warrantyReport ⟨⟨2025, 1, 15⟩, 36000⟩ [asset1]).expired =
        [(asset1, ⟨2025, 1, 1⟩, -15)]
    ∧ ((-15 : Int) ≠ -14) ∧ Int.natAbs (-15) = 15 :=
  ⟨by decide, by decide, by decide, by decide, by decide, by decide⟩

/-- Claim C7 witness: the amended statement at the spec's example
evaluated at midnight, where the day count is -14 (14 days overdue),
together with the calendar rollover of Jan 31 plus one month. -/
theorem warranty_classification_witness :
    (asset1, (⟨2025, 1, 1⟩ : Date), (-14 : Int)) ∈
      (warrantyReport ⟨⟨2025, 1, 15⟩, 0⟩ [asset1]).expired
    ∧ Int.natAbs (-14) = 14
    ∧ addMonths? ⟨2024, 1, 31⟩ 1 = some ⟨2024, 2, 29⟩ := by
  obtain ⟨e, he, hexp, _⟩ := warranty_classification_amended ⟨⟨2025, 1, 15⟩, 0⟩ [asset1] asset1
    ⟨2024, 1, 1⟩ 12 (by decide) (by decide) (by decide) (by decide) (by decide)
  have h2 : some (⟨2025, 1, 1⟩ : Date) = some e :=
    (show addMonths? ⟨2024, 1, 1⟩ 12 = some ⟨2025, 1, 1⟩ by decide).symm.trans he
  injection h2 with h3
  subst h3
  have hd : daysUntil ⟨2025, 1, 1⟩ ⟨⟨2025, 1, 15⟩, 0⟩ = -14 := by decide
  rw [hd] at hexp
  exact ⟨hexp (by decide), by decide, by decide⟩

/-- Characters with equal code points are equal. -/
theorem charEq_of_toNat_eq {c d : Char} (h : c.toNat = d.toNat) : c = d :=
  Char.eq_of_val_eq (UInt32.eq_of_toBitVec_eq (BitVec.eq_of_toNat_eq h))

/-- The lexicographic comparison is connex. -/
theorem lexLt_connex : ∀ (x y : List Char), lexLt x y = true ∨ x = y ∨ lexLt y x = true := by
  intro x
  induction x with
  | nil =>
    intro y
    cases y with
    | nil => exact Or.inr (Or.inl rfl)
    | cons d ds => exact Or.inl (by simp [lexLt])
  | cons c cs ih =>
    intro y
    cases y with
    | nil => exact Or.inr (Or.inr (by simp [lexLt]))
    | cons d ds =>
      rcases Nat.lt_trichotomy c.toNat d.toNat with hlt | heq | hgt
      · exact Or.inl (by simp [lexLt, hlt])
      · have hcd : c = d := charEq_of_toNat_eq heq
        subst hcd
        rcases ih ds with h | h | h
        · exact Or.inl (by simp [lexLt, h])
        · exact Or.inr (Or.inl (by rw [h]))
        · exact Or.inr (Or.inr (by simp [lexLt, h]))
      · exact Or.inr (Or.inr (by simp [lexLt, hgt]))

/-- The lexicographic comparison is transitive. -/
theorem lexLt_trans : ∀ (x y z : List Char),
    lexLt x y = true → lexLt y z = true → lexLt x z = true := by
  intro x
  induction x with
  | nil =>
    intro y z hxy hyz
    cases z with
    | cons _ _ => simp [lexLt]
    | nil =>
      cases y with
      | nil => simp [lexLt] at hxy
      | cons _ _ => simp [lexLt] at hyz
  | cons c cs ih =>
    intro y z hxy hyz
    cases y with
    | nil => simp [lexLt] at hxy
    | cons d ds =>
      cases z with
      | nil => simp [lexLt] at hyz
      | cons e es =>
        simp only [lexLt, Bool.or_eq_true, Bool.and_eq_true, decide_eq_true_eq,
          beq_iff_eq] at hxy hyz ⊢
        rcases hxy with h1 | ⟨hcd, h1⟩
        · rcases hyz with h2 | ⟨hde, h2⟩
          · exact Or.inl (by omega)
          · subst hde
            exact Or.inl h1
        · subst hcd
          rcases hyz with h2 | ⟨hde, h2⟩
          · exact Or.inl h2
          · subst hde
            exact Or.inr ⟨rfl, ih _ _ h1 h2⟩

/-- String comparison is total. -/
theorem strLe_total : ∀ a b : String, strLe a b = true ∨ strLe b a = true := by
  intro a b
  rcases lexLt_connex a.data b.data with h | h | h
  · exact Or.inl (by simp [strLe, strLt, h])
  · have hab : a = b := by
      cases a
      cases b
      exact congrArg String.mk (by simpa using h)
    exact Or.inl (by simp [strLe, hab])
  · exact Or.inr (by simp [strLe, strLt, h])

/-- String comparison is transitive. -/
theorem strLe_trans : ∀ a b c : String,
    strLe a b = true → strLe b c = true → strLe a c = true := by
  intro a b c hab hbc
  simp only [strLe, strLt, Bool.or_eq_true, beq_iff_eq] at hab hbc ⊢
  rcases hab with hab | hab
  · rcases hbc with hbc | hbc
    · exact Or.inl (lexLt_trans _ _ _ hab hbc)
    · subst hbc
      exact Or.inl hab
  · subst hab
    exact hbc

instance : IsTotal String (fun a b => strLe a b = true) := ⟨strLe_total⟩

instance : IsTrans String (fun a b => strLe a b = true) := ⟨strLe_trans⟩

/-- Reflexive comparison plus distinctness gives the strict one. -/
theorem strLt_of_strLe_ne {a b : String} (h : strLe a b = true) (hne : a ≠ b) :
    strLt a b = true := by
  simp only [strLe, Bool.or_eq_true, beq_iff_eq] at h
  rcases h with h | h
  · exact h
  · exact absurd h hne

/-- Keys already accumulated stay in the dict-key fold. -/
theorem dictKeys_aux_sub : ∀ (l : List Asset) (acc : List String) (k : String), k ∈ acc →
    k ∈ l.foldl (fun ks a => if groupKey a ∈ ks then ks else ks ++ [groupKey a]) acc := by
  intro l
  induction l with
  | nil => intro acc k hk; simpa using hk
  | cons b t ih =>
    intro acc k hk
    apply ih
    by_cases hb : groupKey b ∈ acc
    · simpa [hb] using hk
    · simp only [if_neg hb]
      exact List.mem_append_left _ hk

/-- Every processed asset contributes its key to the dict-key fold. -/
theorem dictKeys_aux_mem : ∀ (l : List Asset) (acc : List String) (a : Asset), a ∈ l →
    groupKey a ∈ l.foldl (fun ks a => if groupKey a ∈ ks then ks else ks ++ [groupKey a]) acc := by
  intro l
  induction l with
  | nil => intro acc a ha; simp at ha
  | cons b t ih =>
    intro acc a ha
    rcases List.mem_cons.mp ha with rfl | hat
    · show groupKey a ∈ List.foldl (fun ks x => if groupKey x ∈ ks then ks else ks ++ [groupKey x])
        (if groupKey a ∈ acc then acc else acc ++ [groupKey a]) t
      apply dictKeys_aux_sub
      by_cases hb : groupKey a ∈ acc
      · rw [if_pos hb]
        exact hb
      · rw [if_neg hb]
        exact List.mem_append_right _ (List.mem_singleton_self _)
    · exact ih _ a hat

/-- Every key produced by the dict-key fold comes from the
accumulator or from some processed asset. -/
theorem dictKeys_aux_sound : ∀ (l : List Asset) (acc : List String) (k : String),
    k ∈ l.foldl (fun ks a => if groupKey a ∈ ks then ks else ks ++ [groupKey a]) acc →
    k ∈ acc ∨ ∃ a ∈ l, groupKey a = k := by
  intro l
  induction l with
  | nil => intro acc k hk; exact Or.inl (by simpa using hk)
  | cons b t ih =>
    intro acc k hk
    rcases ih _ k hk with h | ⟨a, ha, hga⟩
    · change k ∈ (if groupKey b ∈ acc then acc else acc ++ [groupKey b]) at h
      by_cases hb : groupKey b ∈ acc
      · rw [if_pos hb] at h
        exact Or.inl h
      · rw [if_neg hb] at h
        rcases List.mem_append.mp h with h | h
        · exact Or.inl h
        · simp only [List.mem_singleton] at h
          exact Or.inr ⟨b, List.mem_cons_self _ _, h.symm⟩
    · exact Or.inr ⟨a, List.mem_cons_of_mem _ ha, hga⟩

/-- The dict-key fold keeps the key list free of duplicates. -/
theorem dictKeys_aux_nodup : ∀ (l : List Asset) (acc : List String), acc.Nodup →
    (l.foldl (fun ks a => if groupKey a ∈ ks then ks else ks ++ [groupKey a]) acc).Nodup := by
  intro l
  induction l with
  | nil => intro acc hacc; simpa using hacc
  | cons b t ih =>
    intro acc hacc
    apply ih
    by_cases hb : groupKey b ∈ acc
    · simpa [hb] using hacc
    · simp only [if_neg hb]
      simp [List.nodup_append, hacc, hb]

/-- Claim C8 (amended): for every collection whose asset costs all
parse, the owner report groups the assets by the value of their owner
field — a blank owner forms its own blank-named group, and the
literal "Unassigned" bucket arises only for records missing the owner
field entirely — and renders per group the count, the summed cost and
the member names in original order, with the groups sorted strictly
by owner name. -/
theorem owner_report_amended (assets : List Asset)
    (h : ∀ a ∈ assets, (costVal? a).isSome) :
    ∃ groups, ownerReport assets = some groups
      ∧ groups.Pairwise (fun g g' => strLt g.owner g'.owner = true)
      ∧ (∀ a ∈ assets, ∃ g ∈ groups, g.owner = groupKey a)
      ∧ (∀ g ∈ groups, ∃ a ∈ assets, groupKey a = g.owner)
      ∧ (∀ g ∈ groups,
          g.count = (assets.filter (fun a => groupKey a == g.owner)).length
          ∧ g.totalCost = ((assets.filter (fun a => groupKey a == g.owner)).map
              (fun a => (costVal? a).getD 0)).sum
          ∧ g.assetNames = (assets.filter (fun a => groupKey a == g.owner)).map
              (fun a => (a.name, a.id)))
      ∧ (∀ a : Asset, (∀ s, a.owner = some s → groupKey a = s)
          ∧ (a.owner = none → groupKey a = "Unassigned")) := by
  have hall : assets.all (fun a => (costVal? a).isSome) = true :=
    List.all_eq_true.mpr (fun a ha => by simpa using h a ha)
  have hperm := List.perm_insertionSort (fun x y : String => strLe x y = true) (dictKeys assets)
  have hnd : (List.insertionSort (fun x y : String => strLe x y = true)
      (dictKeys assets)).Nodup :=
    hperm.nodup_iff.mpr (dictKeys_aux_nodup assets [] List.nodup_nil)
  have hs : (List.insertionSort (fun x y : String => strLe x y = true)
      (dictKeys assets)).Pairwise (fun x y => strLe x y = true) :=
    List.sorted_insertionSort _ _
  have hstrict : (List.insertionSort (fun x y : String => strLe x y = true)
      (dictKeys assets)).Pairwise (fun x y => strLt x y = true) :=
    (hs.and hnd).imp (fun hp => strLt_of_strLe_ne hp.1 hp.2)
  refine ⟨(List.insertionSort (fun x y : String => strLe x y = true) (dictKeys assets)).map
      (fun k =>
        { owner := k
          count := (assets.filter (fun a => groupKey a == k)).length
          totalCost := ((assets.filter (fun a => groupKey a == k)).map
              (fun a => (costVal? a).getD 0)).sum
          assetNames := (assets.filter (fun a => groupKey a == k)).map
            (fun a => (a.name, a.id)) }),
    ?_, ?_, ?_, ?_, ?_, ?_⟩
  · unfold ownerReport
    rw [if_pos hall]
  · exact List.pairwise_map.mpr (hstrict.imp (fun hp => hp))
  · intro a ha
    have hk : groupKey a ∈ dictKeys assets := dictKeys_aux_mem assets [] a ha
    have hk2 := hperm.mem_iff.mpr hk
    exact ⟨_, List.mem_map_of_mem _ hk2, rfl⟩
  · intro g hg
    obtain ⟨k, hk, rfl⟩ := List.mem_map.mp hg
    rcases dictKeys_aux_sound assets [] k (hperm.mem_iff.mp hk) with h0 | ⟨a, ha, hka⟩
    · simp at h0
    · exact ⟨a, ha, hka⟩
  · intro g hg
    obtain ⟨k, hk, rfl⟩ := List.mem_map.mp hg
    exact ⟨rfl, rfl, rfl⟩
  · intro a
    constructor
    · intro s hs'
      simp [groupKey, hs']
    · intro h0
      simp [groupKey, h0]

/-- Claim C8 counterexample: an asset whose owner field is present
but blank is grouped under the blank owner name, not under the
literal "Unassigned" bucket the claim requires. -/
theorem owner_blank_counterexample :
    (ownerReport [assetBlankOwner]).map (fun gs => gs.map (fun g => g.owner)) = some [""]
    ∧ assetBlankOwner.owner = some ""
    ∧ ("" : String) ≠ "Unassigned" := ⟨by decide, by decide, by decide⟩

/-- Claim C8 witness: the amended statement on a concrete two-asset
collection with a blank owner present. -/
theorem owner_report_witness :
    ∃ groups, ownerReport [asset1, assetBlankOwner] = some groups
      ∧ groups.Pairwise (fun g g' => strLt g.owner g'.owner = true)
      ∧ (∀ a ∈ [asset1, assetBlankOwner], ∃ g ∈ groups, g.owner = groupKey a) := by
  obtain ⟨groups, h1, h2, h3, _⟩ := owner_report_amended [asset1, assetBlankOwner] (by decide)
  exact ⟨groups, h1, h2, h3⟩

/-- Claim C9 (amended): on the empty collection the cost analysis
does not fail: the guard takes the No-assets branch before any
average is computed, so no division by zero can occur and the report
carries no average figure at all. -/
theorem cost_report_empty : generateCostReport [] = some CostReport.noAssets
    ∧ avgOf CostReport.noAssets = none := ⟨rfl, rfl⟩

/-- Claim C9 counterexample: the cost analysis of the empty
collection carries no average value — in particular it does not
return the average 0 the claim asserts. -/
theorem cost_report_empty_counterexample :
    (generateCostReport []).bind avgOf = none
    ∧ (none : Option ℚ) ≠ some 0 := ⟨rfl, by decide⟩

end AFMDW
